import Mathlib

/-!
# Verification of the Kuulchat question-extraction and restructuring pipeline

A shallow embedding, over `List Char`, of the text-processing core of
`src/main.py` (the `KuulchatSpider` parsing methods) and
`src/restructure_questions.py` (aggregation and flattening).

Python strings are modelled as `List Char`; `None` as `Option.none`;
Python dicts with a fixed key set as structures whose optional keys are
`Option` fields.  The regular expressions the source uses are modelled by a
small backtracking matcher (`RE` / `tryMatch`) that mirrors CPython `re`
semantics for the constructs the source needs: literals (case-sensitive and
case-insensitive), character classes, greedy and lazy star over a class,
plus, optional single character, concatenation, prioritized alternation,
capture groups, atomic zero-width lookahead, and the `$` anchor with and
without `MULTILINE`.
-/

set_option maxRecDepth 20000

namespace Kuulchat

/-- Model of `String.data` helper: the character list of a literal. -/
def chars (s : String) : List Char := s.data

/-- Python `\s` for the ASCII range (space, tab, newline, carriage return,
vertical tab, form feed). -/
def isPySpace (c : Char) : Bool :=
  c == ' ' || c == '\t' || c == '\n' || c == '\r' ||
  c == Char.ofNat 11 || c == Char.ofNat 12

/-- ASCII lower-casing, matching Python `str.lower` on ASCII input. -/
def asciiLower (c : Char) : Char :=
  if 'A' ≤ c && c ≤ 'Z' then Char.ofNat (c.toNat + 32) else c

/-- ASCII upper-casing, matching Python `str.upper` on ASCII input. -/
def asciiUpper (c : Char) : Char :=
  if 'a' ≤ c && c ≤ 'z' then Char.ofNat (c.toNat - 32) else c

def lowerStr (s : List Char) : List Char := s.map asciiLower

def upperStr (s : List Char) : List Char := s.map asciiUpper

/-- Python `str.strip()` (whitespace from both ends). -/
def pyStrip (s : List Char) : List Char :=
  ((s.dropWhile isPySpace).reverse.dropWhile isPySpace).reverse

/-- Python `str.strip("()")`. -/
def stripParens (s : List Char) : List Char :=
  let isPar := fun c => c == '(' || c == ')'
  ((s.dropWhile isPar).reverse.dropWhile isPar).reverse

/-- Python substring test `needle in hay`. -/
def containsSub (hay needle : List Char) : Bool :=
  match hay with
  | [] => needle.isPrefixOf ([] : List Char)
  | _ :: t => needle.isPrefixOf hay || containsSub t needle

/-- Case-insensitive prefix test returning the rest of the input on success. -/
def ciPrefixRest (pat s : List Char) : Option (List Char) :=
  match pat, s with
  | [], rest => some rest
  | _ :: _, [] => none
  | a :: as, b :: bs =>
      if asciiLower a == asciiLower b then ciPrefixRest as bs else none

/-- Model of `re.sub(r"\s+", " ", ·)`: collapse every whitespace run to one space. -/
def collapseWSAux : Bool → List Char → List Char
  | _, [] => []
  | afterSpace, c :: rest =>
      if isPySpace c then
        (if afterSpace then [] else [' ']) ++ collapseWSAux true rest
      else c :: collapseWSAux false rest

def collapseWS (s : List Char) : List Char := collapseWSAux false s

/-- Decimal digits of a number, as written by Python string interpolation. -/
def natDigits (n : Nat) : List Char := Nat.toDigits 10 n

/-- Python `int(·)` on a digit string. -/
def digitsToNat (s : List Char) : Nat :=
  s.foldl (fun a c => 10 * a + (c.toNat - 48)) 0

/-! ## The regular-expression matcher -/

/-- Syntax of the regex fragment used by `src/main.py`.  `star`/`lazyStar`/
`plus`/`optC` range over single-character classes only, which is all the
patterns of the source need and keeps the matcher structurally recursive. -/
inductive RE where
  | lit : List Char → RE
  | litCI : List Char → RE
  | cls : (Char → Bool) → RE
  | starG : (Char → Bool) → RE
  | starL : (Char → Bool) → RE
  | plusG : (Char → Bool) → RE
  | optC : (Char → Bool) → RE
  | cat : RE → RE → RE
  | alt : RE → RE → RE
  | grp : Nat → RE → RE
  | look : RE → RE
  | eol : Bool → RE

/-- Captured groups: most recent capture first, as CPython keeps the last
value written to a group. -/
abbrev Caps := List (Nat × List Char)

/-- Result threaded through the continuation-passing matcher: the remaining
input and the captures at the point the whole pattern succeeded. -/
abbrev MRes := Option (List Char × Caps)

/-- Backtracking matcher in continuation-passing style.  `alt` tries the left
branch first; `starG` offers the longest consumption first, `starL` the
shortest; `look` is the CPython atomic zero-width assertion (the sub-pattern is
matched once, then never re-entered); `eol b` is `$` with (`b = true`) or
without `MULTILINE`. -/
def tryMatch : RE → List Char → Caps → (List Char → Caps → MRes) → MRes
  | .lit pat, inp, caps, k =>
      if pat.isPrefixOf inp then k (inp.drop pat.length) caps else none
  | .litCI pat, inp, caps, k =>
      match ciPrefixRest pat inp with
      | some rest => k rest caps
      | none => none
  | .cls p, inp, caps, k =>
      match inp with
      | [] => none
      | c :: rest => if p c then k rest caps else none
  | .starG p, inp, caps, k =>
      let run := inp.takeWhile p
      (List.range (run.length + 1)).reverse.findSome? fun i => k (inp.drop i) caps
  | .starL p, inp, caps, k =>
      let run := inp.takeWhile p
      (List.range (run.length + 1)).findSome? fun i => k (inp.drop i) caps
  | .plusG p, inp, caps, k =>
      let run := inp.takeWhile p
      (List.range run.length).reverse.findSome? fun j => k (inp.drop (j + 1)) caps
  | .optC p, inp, caps, k =>
      match inp with
      | [] => k inp caps
      | c :: rest =>
          if p c then
            match k rest caps with
            | some r => some r
            | none => k inp caps
          else k inp caps
  | .cat r1 r2, inp, caps, k =>
      tryMatch r1 inp caps fun rem caps1 => tryMatch r2 rem caps1 k
  | .alt r1 r2, inp, caps, k =>
      match tryMatch r1 inp caps k with
      | some r => some r
      | none => tryMatch r2 inp caps k
  | .grp n r, inp, caps, k =>
      tryMatch r inp caps fun rem caps1 =>
        k rem ((n, inp.take (inp.length - rem.length)) :: caps1)
  | .look r, inp, caps, k =>
      match tryMatch r inp caps fun rem caps1 => some (rem, caps1) with
      | some (_, caps1) => k inp caps1
      | none => none
  | .eol multiline, inp, caps, k =>
      match inp with
      | [] => k inp caps
      | '\n' :: rest =>
          if multiline || rest.isEmpty then k inp caps else none
      | _ => none

/-- Concatenation of a pattern list. -/
def cats (l : List RE) : RE := l.foldr RE.cat (.lit [])

/-- Try the whole pattern at the start of `inp`; on success return the number
of characters consumed and the captures. -/
def matchAt (r : RE) (inp : List Char) : Option (Nat × Caps) :=
  match tryMatch r inp [] fun rem caps => some (rem, caps) with
  | some (rem, caps) => some (inp.length - rem.length, caps)
  | none => none

/-- Model of `re.search`: leftmost match; returns (start, length, captures). -/
def searchAux (r : RE) : List Char → Nat → Option (Nat × Nat × Caps)
  | inp, pos =>
      match matchAt r inp with
      | some (len, caps) => some (pos, len, caps)
      | none =>
          match inp with
          | [] => none
          | _ :: rest => searchAux r rest (pos + 1)

def searchRE (r : RE) (inp : List Char) : Option (Nat × Nat × Caps) :=
  searchAux r inp 0

/-- Model of `re.finditer`: successive non-overlapping leftmost matches.  The fuel is
always at least `inp.length + 1`, enough because every step advances by at
least one character. -/
def findAllAux (r : RE) : Nat → List Char → Nat → List (Nat × Nat × Caps)
  | 0, _, _ => []
  | fuel + 1, inp, pos =>
      match searchRE r inp with
      | none => []
      | some (s, len, caps) =>
          let adv := s + max len 1
          (pos + s, len, caps) :: findAllAux r fuel (inp.drop adv) (pos + adv)

def findAll (r : RE) (inp : List Char) : List (Nat × Nat × Caps) :=
  findAllAux r (inp.length + 1) inp 0

/-- Model of `re.split(pattern, s, 1)` with no capture kept: text before the first
match, and (if a match exists) the text after it. -/
def split1 (r : RE) (s : List Char) : List Char × Option (List Char) :=
  match searchRE r s with
  | none => (s, none)
  | some (st, len, _) => (s.take st, some (s.drop (st + len)))

/-- Model of `re.split` with one capture group `g`: pieces interleaved with the
captured group of each separator, as Python returns them. -/
def buildSplit (s : List Char) (g : Nat) :
    List (Nat × Nat × Caps) → Nat → List (List Char)
  | [], prev => [s.drop prev]
  | (st, len, caps) :: rest, prev =>
      ((s.drop prev).take (st - prev)) :: ((caps.lookup g).getD []) ::
        buildSplit s g rest (st + len)

def resplitCap (r : RE) (g : Nat) (s : List Char) : List (List Char) :=
  buildSplit s g (findAll r s) 0

/-! ## Character classes and concrete patterns of `src/main.py` -/

def isADu (c : Char) : Bool := c == 'A' || c == 'B' || c == 'C' || c == 'D'

/-- Model of `[A-D]` under `re.IGNORECASE`. -/
def isADci (c : Char) : Bool := isADu c || c == 'a' || c == 'b' || c == 'c' || c == 'd'

def isDigitCh (c : Char) : Bool := 48 ≤ c.toNat && c.toNat ≤ 57

def isLowerAtoD (c : Char) : Bool := c == 'a' || c == 'b' || c == 'c' || c == 'd'

def isLowerAlpha (c : Char) : Bool := 97 ≤ c.toNat && c.toNat ≤ 122

def isIVX (c : Char) : Bool := c == 'i' || c == 'v' || c == 'x'

/-- Model of `r"(\d+)\."` — the question-number pattern. -/
def reNumberDot : RE := cats [.grp 1 (.plusG isDigitCh), .lit (chars ".")]

/-- Model of `r"\s+(?:Mark|Solution)\s+"` — objective solution-introducer split. -/
def reMarkSolution : RE :=
  cats [.plusG isPySpace,
        .alt (.lit (chars "Mark")) (.lit (chars "Solution")),
        .plusG isPySpace]

/-- Model of `r"\s+Show Solution\s+"` — theory solution-introducer split. -/
def reShowSolution : RE :=
  cats [.plusG isPySpace, .lit (chars "Show Solution"), .plusG isPySpace]

/-- Model of `r"\s+[A-D]\.\s+"` — the first-option split in `extract_question_stem`. -/
def reOptionMarker : RE :=
  cats [.plusG isPySpace, .cls isADu, .lit (chars "."), .plusG isPySpace]

/-- Model of `r"([A-D])\.\s*([^A-D]*?)(?=\s+[A-D]\.|$)"` (MULTILINE|DOTALL). -/
def reOpt1 : RE :=
  cats [.grp 1 (.cls isADu), .lit (chars "."), .starG isPySpace,
        .grp 2 (.starL (fun c => !isADu c)),
        .look (.alt (cats [.plusG isPySpace, .cls isADu, .lit (chars ".")])
                    (.eol true))]

/-- Model of `r"([A-D])\s*\.\s*([^A-D]*?)(?=\s*[A-D]\s*\.|$)"` (MULTILINE|DOTALL). -/
def reOpt2 : RE :=
  cats [.grp 1 (.cls isADu), .starG isPySpace, .lit (chars "."), .starG isPySpace,
        .grp 2 (.starL (fun c => !isADu c)),
        .look (.alt (cats [.starG isPySpace, .cls isADu, .starG isPySpace,
                           .lit (chars ".")])
                    (.eol true))]

/-- Model of `r"([A-D])\s*\.?\s*([^\n]*?)(?=\s*[A-D]\s*\.|\n[A-D]\s*\.|$)"`
(MULTILINE|DOTALL). -/
def reOpt3 : RE :=
  cats [.grp 1 (.cls isADu), .starG isPySpace, .optC (fun c => c == '.'),
        .starG isPySpace, .grp 2 (.starL (fun c => c != '\n')),
        .look (.alt (cats [.starG isPySpace, .cls isADu, .starG isPySpace,
                           .lit (chars ".")])
               (.alt (cats [.lit (chars "\n"), .cls isADu, .starG isPySpace,
                            .lit (chars ".")])
                     (.eol true)))]

/-- Model of `r"\s*\(([a-d])\)\s*"` — the top-level theory part split. -/
def reMainPart : RE :=
  cats [.starG isPySpace, .lit (chars "("), .grp 1 (.cls isLowerAtoD),
        .lit (chars ")"), .starG isPySpace]

/-- Model of `r"\s*\(([ivx]+|[a-z])\)\s*"` — the sub-subpart split. -/
def reIvx : RE :=
  cats [.starG isPySpace, .lit (chars "("),
        .grp 1 (.alt (.plusG isIVX) (.cls isLowerAlpha)),
        .lit (chars ")"), .starG isPySpace]

/-- Model of `r"answer is ([A-D])"` under `re.IGNORECASE`. -/
def reAnswerIs : RE := cats [.litCI (chars "answer is "), .grp 1 (.cls isADci)]

/-- Model of `r"correct answer is ([A-D])"` under `re.IGNORECASE`. -/
def reCorrectAnswerIs : RE :=
  cats [.litCI (chars "correct answer is "), .grp 1 (.cls isADci)]

/-- Model of `r"option ([A-D])"` under `re.IGNORECASE`. -/
def reOptionWord : RE := cats [.litCI (chars "option "), .grp 1 (.cls isADci)]

/-- Model of `r"^([A-D])\."` under `re.IGNORECASE` — anchored, so only tried at the
start of the text. -/
def reStartLetterDot : RE := cats [.grp 1 (.cls isADci), .lit (chars ".")]

/-- Model of `r"([A-D])"` — used on answer-indicator HTML elements (no flags). -/
def reAnyAD : RE := .grp 1 (.cls isADu)

/-- Model of `rf"\({letters}\)(.*?)(?=\([a-d]\)|$)"` (DOTALL, no MULTILINE) — the
per-subpart solution span in `integrate_theory_solutions`. -/
def reSolForPart (letters : List Char) : RE :=
  cats [.lit ('(' :: letters ++ [')']),
        .grp 1 (.starL (fun _ => true)),
        .look (.alt (cats [.lit (chars "("), .cls isLowerAtoD, .lit (chars ")")])
                    (.eol false))]

/-! ## URL handling: `fix_image_url` and `is_ad_image` -/

/-- UTF-8 encoding of a character, as `urllib.parse.quote` sees the string. -/
def utf8Bytes (c : Char) : List Nat :=
  let n := c.toNat
  if n < 128 then [n]
  else if n < 2048 then [192 + n / 64, 128 + n % 64]
  else if n < 65536 then [224 + n / 4096, 128 + (n / 64) % 64, 128 + n % 64]
  else [240 + n / 262144, 128 + (n / 4096) % 64, 128 + (n / 64) % 64, 128 + n % 64]

/-- Bytes `urllib.parse.quote(·, safe="/")` leaves as-is: ASCII letters,
digits, `_.-~` and `/`. -/
def quoteSafeByte (b : Nat) : Bool :=
  (65 ≤ b && b ≤ 90) || (97 ≤ b && b ≤ 122) || (48 ≤ b && b ≤ 57) ||
  b == 95 || b == 46 || b == 45 || b == 126 || b == 47

/-- Upper-case hex digit, as `quote` writes escapes. -/
def hexDigitChar (n : Nat) : Char :=
  if n < 10 then Char.ofNat (48 + n) else Char.ofNat (55 + n)

def pctByte (b : Nat) : List Char := ['%', hexDigitChar (b / 16), hexDigitChar (b % 16)]

/-- Model of `urllib.parse.quote(s)` with the default `safe="/"`. -/
def pyQuote (s : List Char) : List Char :=
  (s.map fun c =>
    ((utf8Bytes c).map fun b =>
      if quoteSafeByte b then [Char.ofNat b] else pctByte b).flatten).flatten

/-- Model of `fix_image_url` (src/main.py): percent-encode only the part after the
last `/`; if there is no `/`, encode the whole string. -/
def fix_image_url (img_src : List Char) : List Char :=
  if img_src.contains '/' then
    let rev := img_src.reverse
    let fnameRev := rev.takeWhile (fun c => c != '/')
    let base := (rev.drop (fnameRev.length + 1)).reverse
    let filename := fnameRev.reverse
    base ++ '/' :: pyQuote filename
  else pyQuote img_src

def adKeywords : List (List Char) :=
  [chars "banner", chars "ad", chars "sponsor", chars "promo"]

/-- Model of `is_ad_image` (src/main.py): empty/missing source counts as an ad; a URL
containing `/qns/` never does; otherwise any ad keyword in the lower-cased
URL makes it an ad. -/
def is_ad_image (img_src : List Char) : Bool :=
  if img_src.isEmpty then true
  else if containsSub img_src (chars "/qns/") then false
  else adKeywords.any fun p => containsSub (lowerStr img_src) p

/-- The mapping applied to each `<img src>` by the loop of `extract_all_diagrams` over
first loop: keep a source only if present, truthy and not an ad, and fix its
URL. -/
def keepFixed (srcs : List (Option (List Char))) : List (List Char) :=
  srcs.filterMap fun o =>
    match o with
    | none => none
    | some s => if !s.isEmpty && !is_ad_image s then some (fix_image_url s) else none

/-- The `seen`-set deduplication loop of `extract_all_diagrams`. -/
def dedupSeen (seen : List (List Char)) : List (List Char) → List (List Char)
  | [] => []
  | x :: rest =>
      if seen.contains x then dedupSeen seen rest
      else x :: dedupSeen (x :: seen) rest

/-- Model of `extract_all_diagrams` (src/main.py), over the list of `src` attributes
of the `img` elements of a container. -/
def extract_all_diagrams (srcs : List (Option (List Char))) : List (List Char) :=
  dedupSeen [] (keepFixed srcs)

/-! ## Objective-question parsing -/

/-- Model of `re.sub(rf"^{question_num}\.?\s*", "", ·)`: drop the leading number, an
optional period and following whitespace.  The pattern is anchored, so only
position 0 can match. -/
def stripLeadingNum (n : Nat) (s : List Char) : List Char :=
  let ds := natDigits n
  if ds.isPrefixOf s then
    let r1 := s.drop ds.length
    let r2 := match r1 with
      | '.' :: t => t
      | _ => r1
    r2.dropWhile isPySpace
  else s

/-- Model of `extract_question_stem` (src/main.py). -/
def extract_question_stem (question_part : List Char) (n : Nat) : List Char :=
  let text := stripLeadingNum n question_part
  let stem := pyStrip (split1 reOptionMarker text).1
  collapseWS stem

/-- The initial `{"A": "", "B": "", "C": "", "D": ""}` dict. -/
def options0 : List (List Char × List Char) :=
  [(chars "A", []), (chars "B", []), (chars "C", []), (chars "D", [])]

/-- The cleanup applied to each captured option text: `.strip()`, collapse
whitespace, drop a trailing period, drop a leading bullet. -/
def stripTrailingPeriod (s : List Char) : List Char :=
  match s.reverse with
  | '.' :: rest => rest.reverse
  | '\n' :: '.' :: rest => ('\n' :: rest).reverse
  | _ => s

def stripLeadingBullet (s : List Char) : List Char :=
  let s1 := s.dropWhile isPySpace
  match s1 with
  | c :: rest => if c == '-' || c == '•' then rest.dropWhile isPySpace else s
  | [] => s

def cleanOptionText (raw : List Char) : List Char :=
  stripLeadingBullet (stripTrailingPeriod (collapseWS (pyStrip raw)))

/-- Model of `options[letter] = text` guarded exactly as the source:
`if letter in options and option_text and not options[letter]`. -/
def optionUpdate (opts : List (List Char × List Char)) (letter txt : List Char) :
    List (List Char × List Char) :=
  if (opts.any fun p => p.1 == letter) && !txt.isEmpty &&
      ((opts.lookup letter).getD []).isEmpty then
    opts.map fun p => if p.1 == letter then (p.1, txt) else p
  else opts

/-- The `(letter, raw text)` pairs produced by `re.finditer` for one option
pattern. -/
def optMatchPairs (r : RE) (t : List Char) : List (List Char × List Char) :=
  (findAll r t).map fun m => ((m.2.2.lookup 1).getD [], (m.2.2.lookup 2).getD [])

def applyOptPattern (opts : List (List Char × List Char)) (t : List Char) (r : RE) :
    List (List Char × List Char) :=
  (optMatchPairs r t).foldl (fun o m => optionUpdate o m.1 (cleanOptionText m.2)) opts

/-- Model of `extract_options_from_text` (src/main.py): the three patterns are tried
in order and only fill letters that are still empty. -/
def extract_options_from_text (t : List Char) : List (List Char × List Char) :=
  [reOpt1, reOpt2, reOpt3].foldl (fun o r => applyOptPattern o t r) options0

/-- Model of `clean_solution_text` (src/main.py). -/
def stripLeadingSolutionWord (s : List Char) : List Char :=
  match ciPrefixRest (chars "solution") s with
  | some rest => rest.dropWhile isPySpace
  | none => s

def clean_solution_text (s : List Char) : List Char :=
  if s.isEmpty then []
  else pyStrip (collapseWS (stripLeadingSolutionWord s))

/-- The `answer_info` dict: both keys are optional because the dict may be
created empty and only given an `answer` (HTML fallback path). -/
structure AnswerInfo where
  answer : Option (List Char)
  solution : Option (List Char)
deriving DecidableEq, Repr

/-- The four answer-indicator patterns, in priority order; the Bool records
whether the pattern is `^`-anchored. -/
def answerPatterns : List (RE × Bool) :=
  [(reAnswerIs, false), (reCorrectAnswerIs, false), (reOptionWord, false),
   (reStartLetterDot, true)]

def searchAnswerPat (p : RE × Bool) (t : List Char) : Option (List Char) :=
  let res := if p.2 then (matchAt p.1 t).map (fun m => (0, m.1, m.2)) else searchRE p.1 t
  res.map fun m => upperStr ((m.2.2.lookup 1).getD [])

/-- Model of `extract_answer_info` (src/main.py). -/
def extract_answer_info (solution_text : List Char) : Option AnswerInfo :=
  if solution_text.isEmpty then none
  else
    let clean := pyStrip solution_text
    let letter := answerPatterns.findSome? fun p => searchAnswerPat p clean
    some ⟨letter, some (clean_solution_text clean)⟩

/-- The inputs `parse_objective_question_improved` reads from a container:
its full text, its `img` sources, and the full texts of the elements matched
by the two CSS queries of `extract_answer_from_html`. -/
structure Container where
  fullText : List Char
  imgSrcs : List (Option (List Char))
  answerElemTexts : List (List Char)
  solutionElemTexts : List (List Char)

/-- Model of `extract_answer_from_html` (src/main.py): first the checkmark/correct
elements, then the hardcoded `"light to electrical"` literal-content match on
solution elements. -/
def extract_answer_from_html (c : Container) : Option (List Char) :=
  match c.answerElemTexts.findSome? fun t =>
      (searchRE reAnyAD t).map fun m => upperStr ((m.2.2.lookup 1).getD []) with
  | some a => some a
  | none =>
      c.solutionElemTexts.findSome? fun t =>
        if containsSub (lowerStr t) (chars "light to electrical") then
          some (chars "B")
        else none

structure ObjQ where
  number : Nat
  question : List Char
  options : List (List Char × List Char)
  diagrams : List (List Char)
  answer : Option (List Char)
  solution : Option (List Char)
deriving DecidableEq, Repr

/-- Model of `parse_objective_question_improved` (src/main.py). -/
def parse_objective_question_improved (c : Container) : Option ObjQ :=
  match searchRE reNumberDot c.fullText with
  | none => none
  | some m =>
      let n := digitsToNat ((m.2.2.lookup 1).getD [])
      let pieces := split1 reMarkSolution c.fullText
      let question_part := pieces.1
      let solution_part := (pieces.2).getD []
      let stem := extract_question_stem question_part n
      let options := extract_options_from_text question_part
      let info0 := extract_answer_info solution_part
      let info : Option AnswerInfo :=
        match info0 with
        | none =>
            match extract_answer_from_html c with
            | some a => some ⟨some a, none⟩
            | none => none
        | some ai =>
            match ai.answer with
            | some _ => some ai
            | none =>
                match extract_answer_from_html c with
                | some a => some ⟨some a, ai.solution⟩
                | none => some ai
      let diagrams := extract_all_diagrams c.imgSrcs
      if stem ≠ [] ∧ (∃ p ∈ options, p.2 ≠ []) ∧ 0 < n then
        some { number := n, question := stem, options := options,
               diagrams := diagrams,
               answer := info.bind (fun ai => ai.answer),
               solution := info.bind (fun ai => ai.solution) }
      else none

/-! ## Theory-question parsing -/

/-- A `(i)`/`(ii)`-level sub-subpart dict as the parser builds it. -/
structure SubSub where
  part : List Char
  question : List Char
deriving DecidableEq, Repr

/-- A `(a)`-level subpart dict.  `solution` is absent until
`integrate_theory_solutions` adds it. -/
structure SubPart where
  part : List Char
  question : List Char
  subparts : List SubSub
  solution : Option (List Char)
deriving DecidableEq, Repr

/-- The loop of `parse_sub_subparts_improved` over
`range(1, len(sub_parts), 2)` with the `i + 1 < len` guard: consecutive
(captured letter, following text) pairs; a trailing unpaired element is
ignored. -/
def subSubLoop : List (List Char) → List SubSub
  | l :: c :: rest =>
      let sc := pyStrip c
      (if sc.isEmpty then [] else [⟨'(' :: l ++ [')'], sc⟩]) ++ subSubLoop rest
  | _ => []

/-- Model of `parse_sub_subparts_improved` (src/main.py). -/
def parse_sub_subparts_improved (content : List Char) : List SubSub :=
  let sub_parts := resplitCap reIvx 1 content
  if sub_parts.length < 3 then [] else subSubLoop (sub_parts.drop 1)

/-- One iteration of the subpart loop in `parse_theory_structure_improved`:
`content` is the already-stripped `part_content`. -/
def mkSubpart (letter content : List Char) : SubPart :=
  let subs := parse_sub_subparts_improved content
  { part := '(' :: letter ++ [')'],
    question := if subs.isEmpty then content else [],
    subparts := subs,
    solution := none }

def subpartLoop : List (List Char) → List SubPart
  | l :: c :: rest => mkSubpart l (pyStrip c) :: subpartLoop rest
  | _ => []

/-- Model of `parse_theory_structure_improved` (src/main.py): returns the main
question together with the subpart list. -/
def parse_theory_structure_improved (question_part : List Char) (n : Nat) :
    List Char × List SubPart :=
  let content := stripLeadingNum n question_part
  let main_parts := resplitCap reMainPart 1 content
  if main_parts.length < 3 then (pyStrip content, [])
  else (pyStrip (main_parts.headD []), subpartLoop (main_parts.drop 1))

/-- Model of `integrate_theory_solutions` (src/main.py): each subpart independently
searches the solution text for the span after its own `(letter)` marker. -/
def integrate_theory_solutions (subparts : List SubPart) (solution_part : List Char) :
    List SubPart :=
  subparts.map fun sp =>
    let letters := stripParens sp.part
    match searchRE (reSolForPart letters) solution_part with
    | some m => { sp with solution := some (pyStrip ((m.2.2.lookup 1).getD [])) }
    | none => sp

structure TheoryQ where
  number : Nat
  question : List Char
  subparts : List SubPart
  diagrams : List (List Char)
deriving DecidableEq, Repr

/-- Model of `parse_theory_question_improved` (src/main.py), over the
full text and `img` sources. -/
def parse_theory_question_improved (full : List Char)
    (imgs : List (Option (List Char))) : Option TheoryQ :=
  match searchRE reNumberDot full with
  | none => none
  | some m =>
      let n := digitsToNat ((m.2.2.lookup 1).getD [])
      let pieces := split1 reShowSolution full
      let question_part := pieces.1
      let solution_part := (pieces.2).getD []
      let qs := parse_theory_structure_improved question_part n
      let main_question := qs.1
      let subparts :=
        if solution_part.isEmpty then qs.2
        else integrate_theory_solutions qs.2 solution_part
      let diagrams := extract_all_diagrams imgs
      if main_question ≠ [] ∨ subparts ≠ [] then
        some { number := n, question := main_question, subparts := subparts,
               diagrams := diagrams }
      else none

/-! ## The theory-side duplicate-number removal of `extract_theory_questions` -/

/-- Stable ascending insertion by question number, modelling the stable
`list.sort(key=lambda x: x.get("number", 0))`. -/
def insertByNumber (q : TheoryQ) : List TheoryQ → List TheoryQ
  | [] => [q]
  | r :: rs => if r.number < q.number then r :: insertByNumber q rs else q :: r :: rs

def sortTheoryByNumber : List TheoryQ → List TheoryQ
  | [] => []
  | q :: rest => insertByNumber q (sortTheoryByNumber rest)

/-- The `seen_numbers` loop of `extract_theory_questions`. -/
def dedupTheoryAux (seen : List Nat) : List TheoryQ → List TheoryQ
  | [] => []
  | q :: rest =>
      if seen.contains q.number then dedupTheoryAux seen rest
      else q :: dedupTheoryAux (q.number :: seen) rest

/-- The sort-then-dedup tail of `extract_theory_questions` (src/main.py,
lines 406-418). -/
def theoryUniquePass (qs : List TheoryQ) : List TheoryQ :=
  dedupTheoryAux [] (sortTheoryByNumber qs)

/-! ## Aggregation: the pure loop of `restructure_json` -/

/-- A question as read back from the JSON output of the spider. -/
structure RawQ where
  sectionTag : Option (List Char)
  qtype : Option (List Char)
  number : Option Nat
  question : Option (List Char)
  solution : Option (List Char)
  answer : Option (List Char)
  diagrams : List (List Char)
  subparts : List SubPart
deriving DecidableEq, Repr

/-- Model of `question.copy()` with `section` and `type` popped. -/
structure CleanQ where
  number : Option Nat
  question : Option (List Char)
  solution : Option (List Char)
  answer : Option (List Char)
  diagrams : List (List Char)
  subparts : List SubPart
deriving DecidableEq, Repr

def cleanRawQ (q : RawQ) : CleanQ :=
  ⟨q.number, q.question, q.solution, q.answer, q.diagrams, q.subparts⟩

/-- The bucket key for a question: `type`, with `"mcq"` renamed to
`"objectives"`, and falsy values (missing or empty) yielding no bucket. -/
def bucketKey (q : RawQ) : Option (List Char) :=
  match q.qtype with
  | none => none
  | some t =>
      let t2 := if t == chars "mcq" then chars "objectives" else t
      if t2.isEmpty then none else some t2

/-- Model of `defaultdict(list)` append: extend the existing entry or create one at
the end (Python dicts keep first-insertion key order). -/
def assocAppend (m : List (List Char × List CleanQ)) (k : List Char) (v : CleanQ) :
    List (List Char × List CleanQ) :=
  match m with
  | [] => [(k, [v])]
  | (k0, l) :: rest =>
      if k0 == k then (k0, l ++ [v]) :: rest else (k0, l) :: assocAppend rest k v

/-- Model of `defaultdict(int)` increment. -/
def counterBump (m : List (List Char × Nat)) (k : List Char) :
    List (List Char × Nat) :=
  match m with
  | [] => [(k, 1)]
  | (k0, v) :: rest =>
      if k0 == k then (k0, v + 1) :: rest else (k0, v) :: counterBump rest k

/-- Python truthiness of an optional string. -/
def truthyStr : Option (List Char) → Bool
  | some s => !s.isEmpty
  | none => false

/-- The accumulators of the `for question in data` loop in
`restructure_json`. -/
structure AggState where
  total : Nat
  objective_questions : Nat
  theory_questions : Nat
  restructured : List (List Char × List CleanQ)
  questions_with_diagrams : List (List Char × Nat)
  questions_with_solutions : List (List Char × Nat)
deriving DecidableEq, Repr

def aggInit : AggState := ⟨0, 0, 0, [], [], []⟩

/-- One iteration of the aggregation loop. -/
def aggStep (st : AggState) (q : RawQ) : AggState :=
  let st1 : AggState :=
    { st with
      total := st.total + 1,
      objective_questions :=
        st.objective_questions + (if q.qtype == some (chars "mcq") then 1 else 0),
      theory_questions :=
        st.theory_questions + (if q.qtype == some (chars "theory") then 1 else 0) }
  match bucketKey q with
  | none => st1
  | some k =>
      let cq := cleanRawQ q
      { st1 with
        restructured := assocAppend st1.restructured k cq,
        questions_with_diagrams :=
          if !cq.diagrams.isEmpty then counterBump st1.questions_with_diagrams k
          else st1.questions_with_diagrams,
        questions_with_solutions :=
          if truthyStr cq.solution then counterBump st1.questions_with_solutions k
          else st1.questions_with_solutions }

/-- The pure aggregation core of `restructure_json`
(src/restructure_questions.py, lines 53-80): buckets and statistics before
the I/O steps. -/
def restructure_core (data : List RawQ) : AggState :=
  data.foldl aggStep aggInit

/-! ## The tabular flattener `flatten_question` -/

/-- Values appearing in a flattened row: strings, the possibly-missing
number, and the possibly-`None` question text. -/
inductive JVal where
  | vStr : List Char → JVal
  | vNum : Option Nat → JVal
  | vOptStr : Option (List Char) → JVal
deriving DecidableEq, Repr

/-- A sub-subpart dict as `flatten_question` reads it (`.get` with
defaults). -/
structure FSubSub where
  question : Option (List Char)
  solution : Option (List Char)
  answer : Option (List Char)
deriving DecidableEq, Repr

/-- A subpart dict as `flatten_question` reads it; `subparts` is optional
because the source tests `"subparts" in subpart`. -/
structure FSubpart where
  question : Option (List Char)
  solution : Option (List Char)
  answer : Option (List Char)
  subparts : Option (List FSubSub)
deriving DecidableEq, Repr

/-- A question dict as `flatten_question` reads it. -/
structure FQuestion where
  number : Option Nat
  question : Option (List Char)
  solution : Option (List Char)
  answer : Option (List Char)
  diagrams : List (List Char)
  options : Option (List (List Char × List Char))
  subparts : Option (List FSubpart)
deriving DecidableEq, Repr

/-- Model of `"|".join(diagrams)`. -/
def pipeJoin (l : List (List Char)) : List Char :=
  List.intercalate (chars "|") l

/-- Model of `f"subpart_{i + 1}_{name}"`. -/
def subKey (i : Nat) (name : List Char) : List Char :=
  chars "subpart_" ++ natDigits (i + 1) ++ chars "_" ++ name

/-- Model of `f"subpart_{i + 1}_{chr(97 + j)}_{name}"`. -/
def subKeyNested (i j : Nat) (name : List Char) : List Char :=
  chars "subpart_" ++ natDigits (i + 1) ++ chars "_" ++
    [Char.ofNat (97 + j)] ++ chars "_" ++ name

/-- The inner `for j, nested_subpart in enumerate(subpart["subparts"])`. -/
def subSubRows (i : Nat) : Nat → List FSubSub → List (List Char × JVal)
  | _, [] => []
  | j, s :: rest =>
      (subKeyNested i j (chars "question"), .vStr (s.question.getD [])) ::
      (subKeyNested i j (chars "solution"), .vStr (s.solution.getD [])) ::
      (subKeyNested i j (chars "answer"), .vStr (s.answer.getD [])) ::
      subSubRows i (j + 1) rest

/-- The outer `for i, subpart in enumerate(question["subparts"])`. -/
def subpartRows : Nat → List FSubpart → List (List Char × JVal)
  | _, [] => []
  | i, sp :: rest =>
      (subKey i (chars "question"), .vStr (sp.question.getD [])) ::
      (subKey i (chars "solution"), .vStr (sp.solution.getD [])) ::
      (subKey i (chars "answer"), .vStr (sp.answer.getD [])) ::
      ((match sp.subparts with
        | some ns => subSubRows i 0 ns
        | none => []) ++ subpartRows (i + 1) rest)

/-- Model of `flatten_question` (src/restructure_questions.py, lines 12-46), as the
ordered association list of (column, value) pairs the dict holds. -/
def flatten_question (q : FQuestion) (q_type : List Char) :
    List (List Char × JVal) :=
  let base : List (List Char × JVal) :=
    [(chars "type", .vStr q_type),
     (chars "number", .vNum q.number),
     (chars "question", .vOptStr q.question),
     (chars "solution", .vStr (q.solution.getD [])),
     (chars "answer", .vStr (q.answer.getD [])),
     (chars "diagrams", .vStr (pipeJoin q.diagrams))]
  let withOpts := base ++
    (if q_type == chars "objectives" then
      match q.options with
      | some os => os.map fun p => (chars "option_" ++ p.1, JVal.vStr p.2)
      | none => []
    else [])
  withOpts ++
    (if q_type == chars "theory" then
      match q.subparts with
      | some sps => subpartRows 0 sps
      | none => []
    else [])

/-! ## Miscellaneous helpers used only by statements and proofs -/

/-- Consecutive disjoint pairs of a list, the shape of the
`range(1, len, 2)` / `i + 1 < len` loops. -/
def listPairs {α : Type} : List α → List (α × α)
  | a :: b :: rest => (a, b) :: listPairs rest
  | _ => []

/-! ## Concrete test inputs -/

/-- Scenario A text from the specification, as a container with no images
and no answer-indicator elements. -/
def scenarioAContainer : Container :=
  { fullText := chars "3. What is H2O? A. Gas B. Liquid C. Solid D. Plasma Solution B. Liquid is correct",
    imgSrcs := [], answerElemTexts := [], solutionElemTexts := [] }

/-- The parse of Scenario A. -/
def scenarioAQ : ObjQ :=
  { number := 3, question := chars "What is H2O?",
    options := [(chars "A", chars "Gas"), (chars "B", chars "Liquid"),
                (chars "C", chars "Solid"), (chars "D", chars "Plasma")],
    diagrams := [], answer := some (chars "B"),
    solution := some (chars "B. Liquid is correct") }

/-- A block with no `<digits>.` pattern anywhere. -/
def noNumberContainer : Container :=
  { fullText := chars "No question here", imgSrcs := [],
    answerElemTexts := [], solutionElemTexts := [] }

/-- A solution text matching none of the four structural answer patterns. -/
def solarSolutionText : List Char :=
  chars "The device converts light to electrical energy"

/-- A well-formed objective block whose solution element contains the
hardcoded phrase `"light to electrical"` checked by
`extract_answer_from_html`. -/
def solarCellContainer : Container :=
  { fullText := chars "3. What does a solar cell convert? A. Heat B. Light C. Sound D. Wind Solution The device converts light to electrical energy",
    imgSrcs := [], answerElemTexts := [],
    solutionElemTexts := [chars "Solution The device converts light to electrical energy"] }

/-- First of two objective questions both numbered 7. -/
def mcqSeven1 : RawQ :=
  { sectionTag := some (chars "objective"), qtype := some (chars "mcq"),
    number := some 7, question := some (chars "first version"),
    solution := none, answer := none, diagrams := [], subparts := [] }

/-- Second of two objective questions both numbered 7. -/
def mcqSeven2 : RawQ :=
  { sectionTag := some (chars "objective"), qtype := some (chars "mcq"),
    number := some 7, question := some (chars "second version"),
    solution := none, answer := none, diagrams := [], subparts := [] }

/-- A theory question with no top-level solution whose subpart carries a
nonempty reconciled solution. -/
def theoryRawSubSol : RawQ :=
  { sectionTag := some (chars "theory"), qtype := some (chars "theory"),
    number := some 5, question := some (chars "Explain osmosis."),
    solution := none, answer := none, diagrams := [],
    subparts := [{ part := chars "(a)", question := [], subparts := [],
                   solution := some (chars "osmosis is...") }] }

/-- A nested sub-subpart for flattening tests. -/
def flatNested1 : FSubSub :=
  { question := some (chars "in plants"), solution := none, answer := none }

/-- First flattening subpart, carrying one nested sub-subpart. -/
def flatSub1 : FSubpart :=
  { question := some (chars ""), solution := some (chars "osmosis is..."),
    answer := none, subparts := some [flatNested1] }

/-- Second flattening subpart, with no nested list. -/
def flatSub2 : FSubpart :=
  { question := some (chars "Give one example"),
    solution := some (chars "example is salt water"),
    answer := none, subparts := none }

/-- A theory question with exactly two subparts, the first carrying one
nested sub-subpart. -/
def flatSampleQ : FQuestion :=
  { number := some 5, question := some (chars "Explain osmosis."),
    solution := none, answer := none, diagrams := [], options := none,
    subparts := some [flatSub1, flatSub2] }

end Kuulchat

namespace Kuulchat

/-! ## Claim theorems -/

/-- **C1** (code bug): `extract_answer_info` attaches no answer letter to a
solution text matching none of the four structural patterns, yet the parser
still attaches answer `"B"` to the very same block, produced by the
hardcoded `"light to electrical"` literal-content special case inside
`extract_answer_from_html` — contradicting the specified behavior that the
answer is absent whenever no structural pattern matches and is never guessed
from the content of the solution. -/
theorem c1_literal_content_answer :
    extract_answer_info solarSolutionText =
      some { answer := none, solution := some solarSolutionText }
    ∧ (parse_objective_question_improved solarCellContainer).map (fun q => q.answer) =
        some (some (chars "B")) := by
  decide

/-- **C2** (counterexample): aggregation does not make question numbers
unique per section.  Feeding `restructure_json` two `mcq` questions both
numbered 7 leaves both in the `objectives` bucket, so the output does not
contain exactly one question numbered 7. -/
theorem c2_counterexample_duplicates_kept :
    (restructure_core [mcqSeven1, mcqSeven2]).restructured.lookup (chars "objectives")
      = some [cleanRawQ mcqSeven1, cleanRawQ mcqSeven2]
    ∧ ((((restructure_core [mcqSeven1, mcqSeven2]).restructured.lookup
          (chars "objectives")).getD []).filter fun q => q.number == some 7).length = 2 := by
  decide

/-- **C3** (counterexample): a theory question whose subpart carries a
nonempty reconciled solution is not counted: the aggregation loop only tests
the top-level `solution` key, which theory questions never have, so the
`theory` entry of `questions_with_solutions` is never even created. -/
theorem c3_counterexample_subpart_solutions_uncounted :
    (restructure_core [theoryRawSubSol]).questions_with_solutions.lookup (chars "theory")
      = none
    ∧ theoryRawSubSol.subparts.any (fun sp => truthyStr sp.solution) = true := by
  decide

/-- Helper: membership stays false after popping the list head. -/
theorem contains_cons_false_tail {α : Type} [BEq α] (l : List α) (a b : α)
    (h : (b :: l).contains a = false) : l.contains a = false := by
  have h3 : List.elem a (b :: l) = false := h
  show List.elem a l = false
  cases h2 : a == b
  · have he : List.elem a (b :: l) = List.elem a l := by simp [List.elem, h2]
    rw [← he]; exact h3
  · have he : List.elem a (b :: l) = true := by simp [List.elem, h2]
    rw [h3] at he; cases he

/-- Helper: a non-member differs from the list head. -/
theorem contains_cons_false_head {α : Type} [BEq α] (l : List α) (a b : α)
    (h : (b :: l).contains a = false) : (a == b) = false := by
  have h3 : List.elem a (b :: l) = false := h
  cases h2 : a == b
  · rfl
  · have he : List.elem a (b :: l) = true := by simp [List.elem, h2]
    rw [h3] at he; cases he

/-- Helper: build non-membership in a cons. -/
theorem contains_cons_false_intro {α : Type} [BEq α] (l : List α) (a b : α)
    (h1 : (a == b) = false) (h2 : l.contains a = false) :
    (b :: l).contains a = false := by
  show List.elem a (b :: l) = false
  have he : List.elem a (b :: l) = List.elem a l := by simp [List.elem, h1]
  rw [he]; exact h2

/-- Helper: a member and a non-member of the same list differ. -/
theorem member_bne_nonmember {α : Type} [BEq α] [LawfulBEq α]
    (seen : List α) (x n : α) (hx : seen.contains x = true)
    (hn : seen.contains n = false) : (x == n) = false := by
  cases h : x == n
  · rfl
  · have hxe : x = n := by simpa using h
    rw [hxe] at hx
    rw [hx] at hn
    cases hn

/-- Helper: beq falseness is symmetric under lawfulness. -/
theorem beq_false_symm {α : Type} [BEq α] [LawfulBEq α] (a b : α)
    (h : (a == b) = false) : (b == a) = false := by
  cases h2 : b == a
  · rfl
  · have : b = a := by simpa using h2
    rw [this] at h
    simp at h

/-- The dedup loop of `extract_theory_questions` keeps, for every number not
already seen, exactly the first question with that number. -/
theorem dedupTheory_find (l : List TheoryQ) (seen : List Nat) (n : Nat)
    (h : seen.contains n = false) :
    (dedupTheoryAux seen l).find? (fun q => q.number == n)
      = l.find? (fun q => q.number == n) := by
  induction l generalizing seen with
  | nil => rfl
  | cons q rest ih =>
      cases hc : seen.contains q.number with
      | true =>
          have hqn : (q.number == n) = false :=
            member_bne_nonmember seen q.number n hc h
          rw [show dedupTheoryAux seen (q :: rest) = dedupTheoryAux seen rest by
              simp only [dedupTheoryAux, hc, if_true]]
          rw [ih seen h, List.find?_cons_of_neg _ (by simp [hqn])]
      | false =>
          rw [show dedupTheoryAux seen (q :: rest)
                = q :: dedupTheoryAux (q.number :: seen) rest by
              simp only [dedupTheoryAux, hc, Bool.false_eq_true, if_false]]
          cases hqn : q.number == n with
          | true =>
              rw [List.find?_cons_of_pos _ (by simp [hqn]),
                List.find?_cons_of_pos _ (by simp [hqn])]
          | false =>
              rw [List.find?_cons_of_neg _ (by simp [hqn]),
                List.find?_cons_of_neg _ (by simp [hqn])]
              exact ih _ (contains_cons_false_intro _ _ _
                (beq_false_symm _ _ hqn) h)

/-- The dedup loop emits only unseen numbers, and emits each number once. -/
theorem dedupTheory_nodup (l : List TheoryQ) (seen : List Nat) :
    (∀ q ∈ dedupTheoryAux seen l, seen.contains q.number = false) ∧
    ((dedupTheoryAux seen l).map (fun q => q.number)).Nodup := by
  induction l generalizing seen with
  | nil => exact ⟨fun q hq => absurd hq (List.not_mem_nil q), List.nodup_nil⟩
  | cons q rest ih =>
      cases hc : seen.contains q.number with
      | true =>
          rw [show dedupTheoryAux seen (q :: rest) = dedupTheoryAux seen rest by
            simp only [dedupTheoryAux, hc, if_true]]
          exact ih seen
      | false =>
          obtain ⟨ihMem, ihNodup⟩ := ih (q.number :: seen)
          rw [show dedupTheoryAux seen (q :: rest)
                = q :: dedupTheoryAux (q.number :: seen) rest by
            simp only [dedupTheoryAux, hc, Bool.false_eq_true, if_false]]
          constructor
          · intro r hr
            rcases List.mem_cons.mp hr with hr1 | hr2
            · rw [hr1]; exact hc
            · exact contains_cons_false_tail _ _ _ (ihMem r hr2)
          · rw [List.map_cons]
            refine List.nodup_cons.mpr ⟨?_, ihNodup⟩
            intro hmem
            obtain ⟨r, hr, hrn⟩ := List.mem_map.mp hmem
            have hbne := contains_cons_false_head _ _ _ (ihMem r hr)
            rw [hrn] at hbne
            simp at hbne

/-- **C2 amended**: only theory questions are deduplicated, and that happens
in the spider extraction, not in aggregation (see the counterexample for the
aggregation side).  After the stable ascending number sort, the dedup pass
emits pairwise-distinct question numbers, and for every number it keeps
exactly the question found first in the sorted list, i.e. the one appearing
earlier in the number-sorted input. -/
theorem c2_theory_dedup_amended (qs : List TheoryQ) (n : Nat) :
    ((theoryUniquePass qs).map (fun q => q.number)).Nodup
    ∧ (theoryUniquePass qs).find? (fun q => q.number == n)
        = (sortTheoryByNumber qs).find? (fun q => q.number == n) :=
  ⟨(dedupTheory_nodup (sortTheoryByNumber qs) []).2,
   dedupTheory_find (sortTheoryByNumber qs) [] n rfl⟩

/-- Helper: how one counter bump changes one slot. -/
theorem counterBump_lookup (m : List (List Char × Nat)) (k t : List Char) :
    ((counterBump m k).lookup t).getD 0
      = (if t == k then 1 else 0) + ((m.lookup t).getD 0) := by
  induction m with
  | nil => cases h : t == k <;> simp [counterBump, List.lookup, h]
  | cons p rest ih =>
      obtain ⟨k0, v⟩ := p
      cases h0 : k0 == k with
      | true =>
          have hk0 : k0 = k := by simpa using h0
          rw [show counterBump ((k0, v) :: rest) k = (k0, v + 1) :: rest by
            simp [counterBump, h0]]
          cases ht : t == k0 with
          | false =>
              have htk : (t == k) = false := by rw [← hk0]; exact ht
              simp [List.lookup, ht, htk]
          | true =>
              have htk : (t == k) = true := by rw [← hk0]; exact ht
              simp [List.lookup, ht, htk, Nat.add_comm]
      | false =>
          rw [show counterBump ((k0, v) :: rest) k = (k0, v) :: counterBump rest k by
            simp [counterBump, h0]]
          cases ht : t == k0 with
          | false => simp [List.lookup, ht, ih]
          | true =>
              have ht0 : t = k0 := by simpa using ht
              have htk : (t == k) = false := by
                rw [ht0]; exact h0
              simp [List.lookup, ht, htk]

/-- The aggregation fold counts, per bucket, exactly the questions whose
top-level `solution` is truthy. -/
theorem aggFold_solutions (data : List RawQ) (st : AggState) (t : List Char) :
    (((data.foldl aggStep st).questions_with_solutions).lookup t).getD 0
      = ((st.questions_with_solutions).lookup t).getD 0
        + (data.filter fun q => bucketKey q == some t && truthyStr q.solution).length := by
  induction data generalizing st with
  | nil => simp
  | cons q rest ih =>
      rw [List.foldl_cons, ih]
      cases hb : bucketKey q with
      | none =>
          have h1 : (aggStep st q).questions_with_solutions
              = st.questions_with_solutions := by
            simp [aggStep, hb]
          have h2 : (bucketKey q == some t && truthyStr q.solution) = false := by
            simp [hb]
          rw [h1, List.filter_cons_of_neg (by simp [h2])]
      | some k =>
          cases hs : truthyStr q.solution with
          | false =>
              have h1 : (aggStep st q).questions_with_solutions
                  = st.questions_with_solutions := by
                simp [aggStep, hb, hs, cleanRawQ]
              have h2 : (bucketKey q == some t && truthyStr q.solution) = false := by
                simp [hs]
              rw [h1, List.filter_cons_of_neg (by simp [h2])]
          | true =>
              have h1 : (aggStep st q).questions_with_solutions
                  = counterBump st.questions_with_solutions k := by
                simp [aggStep, hb, hs, cleanRawQ]
              rw [h1, counterBump_lookup]
              by_cases hkt : k = t
              · have hp : (bucketKey q == some t && truthyStr q.solution) = true := by
                  simp [hb, hs, hkt]
                rw [List.filter_cons_of_pos (by simp [hp])]
                have htk : (t == k) = true := by simp [hkt]
                rw [if_pos htk]
                simp only [List.length_cons]
                omega
              · have hp : (bucketKey q == some t && truthyStr q.solution) = false := by
                  simp [hb, hs, hkt]
                rw [List.filter_cons_of_neg (by simp [hp])]
                have htk : (t == k) = false := by
                  simp only [beq_eq_false_iff_ne]
                  exact fun h => hkt h.symm
                rw [if_neg (by simp [htk])]
                omega

/-- **C3 amended**: the per-type questions-with-solutions statistic counts
exactly the questions whose top-level `solution` field is a nonempty string.
Theory questions produced by the parser carry solutions only inside their
subparts and have no top-level `solution`, so they are never counted (see the
counterexample). -/
theorem c3_solution_count_amended (data : List RawQ) (t : List Char) :
    (((restructure_core data).questions_with_solutions).lookup t).getD 0
      = (data.filter fun q => bucketKey q == some t && truthyStr q.solution).length := by
  have h := aggFold_solutions data aggInit t
  simpa [restructure_core, aggInit] using h

/-- **C5**: on the Scenario B block, the theory parser returns question 5
with subpart (a) carrying nested sub-subparts (i) `"in plants"` and (ii)
`"in animals"` and solution `"osmosis is..."`, and subpart (b) with question
`"Give one example"` and solution `"example is salt water"`. -/
theorem c5_scenario_b_parse :
    parse_theory_question_improved
        (chars "5. Explain osmosis. (a) Define osmosis (i) in plants (ii) in animals (b) Give one example Show Solution (a) osmosis is... (b) example is salt water")
        []
      = some { number := 5, question := chars "Explain osmosis.",
               subparts := [
                 { part := chars "(a)", question := [],
                   subparts := [{ part := chars "(i)", question := chars "in plants" },
                                { part := chars "(ii)", question := chars "in animals" }],
                   solution := some (chars "osmosis is...") },
                 { part := chars "(b)", question := chars "Give one example",
                   subparts := [],
                   solution := some (chars "example is salt water") }],
               diagrams := [] } := by
  decide

/-- **C6** (counterexample): an advertisement-classified input can appear in
the resolver output.  `"x/f%2Ady"` carries the ad keyword `"ad"` (inside its
lower-cased percent escape) and no `/qns/`, so it is classified as an ad and
dropped; but the non-ad input `"x/f*dy"` percent-encodes to exactly that
string, which therefore shows up in the output. -/
theorem c6_counterexample_ad_string_in_output :
    is_ad_image (chars "x/f%2Ady") = true
    ∧ (chars "x/f%2Ady") ∈ extract_all_diagrams [some (chars "x/f%2Ady"), some (chars "x/f*dy")] := by
  decide

/-- The diagram dedup loop output is a sublist of its input, so first-seen
order is preserved. -/
theorem dedupSeen_sublist (l seen : List (List Char)) :
    (dedupSeen seen l).Sublist l := by
  induction l generalizing seen with
  | nil => exact List.Sublist.refl []
  | cons x rest ih =>
      cases hc : seen.contains x with
      | true =>
          rw [show dedupSeen seen (x :: rest) = dedupSeen seen rest by
            simp only [dedupSeen, hc, if_true]]
          exact (ih seen).cons x
      | false =>
          rw [show dedupSeen seen (x :: rest) = x :: dedupSeen (x :: seen) rest by
            simp only [dedupSeen, hc, Bool.false_eq_true, if_false]]
          exact (ih (x :: seen)).cons₂ x

/-- The diagram dedup loop keeps exactly the elements not in the seen set. -/
theorem dedupSeen_mem (l : List (List Char)) (seen : List (List Char))
    (y : List Char) :
    y ∈ dedupSeen seen l ↔ (y ∈ l ∧ seen.contains y = false) := by
  induction l generalizing seen with
  | nil => simp [dedupSeen]
  | cons x rest ih =>
      cases hc : seen.contains x with
      | true =>
          rw [show dedupSeen seen (x :: rest) = dedupSeen seen rest by
            simp only [dedupSeen, hc, if_true]]
          rw [ih seen]
          constructor
          · rintro ⟨hm, hcy⟩
            exact ⟨List.mem_cons_of_mem _ hm, hcy⟩
          · rintro ⟨hm, hcy⟩
            rcases List.mem_cons.mp hm with hyx | hm2
            · rw [hyx] at hcy; rw [hc] at hcy; cases hcy
            · exact ⟨hm2, hcy⟩
      | false =>
          rw [show dedupSeen seen (x :: rest) = x :: dedupSeen (x :: seen) rest by
            simp only [dedupSeen, hc, Bool.false_eq_true, if_false]]
          constructor
          · intro hm
            rcases List.mem_cons.mp hm with hyx | hm2
            · rw [hyx]; exact ⟨List.mem_cons_self x rest, hc⟩
            · obtain ⟨hmr, hcy⟩ := (ih (x :: seen)).mp hm2
              exact ⟨List.mem_cons_of_mem _ hmr, contains_cons_false_tail _ _ _ hcy⟩
          · rintro ⟨hm, hcy⟩
            rcases List.mem_cons.mp hm with hyx | hm2
            · rw [hyx]; exact List.mem_cons_self x _
            · cases hyx : y == x with
              | true =>
                  have hyx2 : y = x := by simpa using hyx
                  rw [hyx2]; exact List.mem_cons_self x _
              | false =>
                  exact List.mem_cons_of_mem _ ((ih (x :: seen)).mpr
                    ⟨hm2, contains_cons_false_intro _ _ _ hyx hcy⟩)

/-- The diagram dedup loop emits only unseen URLs, each once. -/
theorem dedupSeen_nodup (l seen : List (List Char)) :
    (∀ y ∈ dedupSeen seen l, seen.contains y = false) ∧ (dedupSeen seen l).Nodup := by
  induction l generalizing seen with
  | nil => exact ⟨fun y hy => absurd hy (List.not_mem_nil y), List.nodup_nil⟩
  | cons x rest ih =>
      cases hc : seen.contains x with
      | true =>
          rw [show dedupSeen seen (x :: rest) = dedupSeen seen rest by
            simp only [dedupSeen, hc, if_true]]
          exact ih seen
      | false =>
          obtain ⟨ihMem, ihNodup⟩ := ih (x :: seen)
          rw [show dedupSeen seen (x :: rest) = x :: dedupSeen (x :: seen) rest by
            simp only [dedupSeen, hc, Bool.false_eq_true, if_false]]
          constructor
          · intro y hy
            rcases List.mem_cons.mp hy with hyx | hy2
            · rw [hyx]; exact hc
            · exact contains_cons_false_tail _ _ _ (ihMem y hy2)
          · refine List.nodup_cons.mpr ⟨?_, ihNodup⟩
            intro hmem
            have hbne := contains_cons_false_head _ _ _ (ihMem x hmem)
            simp at hbne

/-- Every retained diagram is the fixed URL of some present, truthy, non-ad
input source. -/
theorem keepFixed_mem (srcs : List (Option (List Char))) (y : List Char)
    (hy : y ∈ keepFixed srcs) :
    ∃ s, some s ∈ srcs ∧ s ≠ [] ∧ is_ad_image s = false ∧ y = fix_image_url s := by
  unfold keepFixed at hy
  obtain ⟨o, ho, hf⟩ := List.mem_filterMap.mp hy
  cases o with
  | none => cases hf
  | some s =>
      refine ⟨s, ho, ?_⟩
      dsimp only at hf
      cases hcond : (!s.isEmpty && !is_ad_image s) with
      | false => rw [hcond] at hf; cases hf
      | true =>
          rw [hcond] at hf
          simp only [if_true] at hf
          obtain ⟨h1, h2⟩ := Bool.and_eq_true_iff.mp hcond
          refine ⟨?_, ?_, ?_⟩
          · have : s.isEmpty = false := by simpa using h1
            simpa [List.isEmpty_iff] using this
          · simpa using h2
          · exact (Option.some.injEq _ _ ▸ hf).symm

/-- A URL containing the educational marker `/qns/` is never classified as
an advertisement. -/
theorem qns_never_ad (s : List Char) (h : containsSub s (chars "/qns/") = true) :
    is_ad_image s = false := by
  have hne : s.isEmpty = false := by
    cases s with
    | nil => exact absurd h (by decide)
    | cons c rest => rfl
  simp [is_ad_image, hne, h]

/-- **C6 amended**: the resolver output has no duplicates, preserves
first-seen order (it is a sublist of the fixed non-ad inputs, keeping
exactly their set of values), every element of it is the URL-fixed form of
some non-ad input, and a `/qns/` URL is never classified as an ad.  The
original claim fails only in that an ad-classified input STRING can
coincide with the fixed form of a different, non-ad input and thereby
appear in the output (see the counterexample). -/
theorem c6_resolver_amended :
    (∀ s, containsSub s (chars "/qns/") = true → is_ad_image s = false)
    ∧ ∀ srcs : List (Option (List Char)),
        (extract_all_diagrams srcs).Nodup
        ∧ (extract_all_diagrams srcs).Sublist (keepFixed srcs)
        ∧ (∀ y, y ∈ keepFixed srcs ↔ y ∈ extract_all_diagrams srcs)
        ∧ (∀ y ∈ extract_all_diagrams srcs, ∃ s, some s ∈ srcs ∧ s ≠ []
            ∧ is_ad_image s = false ∧ y = fix_image_url s) := by
  refine ⟨qns_never_ad, fun srcs => ⟨?_, ?_, ?_, ?_⟩⟩
  · exact (dedupSeen_nodup (keepFixed srcs) []).2
  · exact dedupSeen_sublist (keepFixed srcs) []
  · intro y
    unfold extract_all_diagrams
    rw [dedupSeen_mem (keepFixed srcs) [] y]
    simp
  · intro y hy
    exact keepFixed_mem srcs y ((dedupSeen_sublist (keepFixed srcs) []).subset hy)

/-- Witness for C6 amended at a concrete `/qns/` URL. -/
theorem c6_resolver_amended_witness :
    is_ad_image (chars "https://kuulchat.com/qns/x.png") = false
    ∧ (extract_all_diagrams [some (chars "https://kuulchat.com/qns/x.png")]).Nodup :=
  ⟨c6_resolver_amended.1 (chars "https://kuulchat.com/qns/x.png") (by decide),
   (c6_resolver_amended.2 [some (chars "https://kuulchat.com/qns/x.png")]).1⟩

/-- **C8**: on the two Scenario C URLs, the resolver keeps the `/qns/` image,
percent-encoding only its trailing filename segment (the `https://` prefix is
left untouched), and classifies the bannered URL without `/qns/` as an ad,
excluding it from the output. -/
theorem c8_scenario_c :
    is_ad_image (chars "https://kuulchat.com/qns/fig1 a.png") = false
    ∧ fix_image_url (chars "https://kuulchat.com/qns/fig1 a.png")
        = chars "https://kuulchat.com/qns/fig1%20a.png"
    ∧ is_ad_image (chars "https://ads.example.com/banner-ad.png") = true
    ∧ extract_all_diagrams
        [some (chars "https://kuulchat.com/qns/fig1 a.png"),
         some (chars "https://ads.example.com/banner-ad.png")]
        = [chars "https://kuulchat.com/qns/fig1%20a.png"] := by
  decide

/-- The in-place write of one dict slot keeps every key. -/
theorem map_slot_fst (o : List (List Char × List Char)) (letter txt : List Char) :
    ((o.map fun p => if p.1 == letter then (p.1, txt) else p).map Prod.fst)
      = o.map Prod.fst := by
  induction o with
  | nil => rfl
  | cons p rest ih =>
      obtain ⟨k, v⟩ := p
      rw [List.map_cons, List.map_cons, List.map_cons, ih]
      by_cases hp : k = letter <;> simp [hp]

/-- The in-place write of a slot with a different key does not change what
`lookup` finds. -/
theorem map_slot_lookup_ne (o : List (List Char × List Char))
    (letter txt l : List Char) (hne : letter ≠ l) :
    List.lookup l (o.map fun p => if p.1 == letter then (p.1, txt) else p)
      = List.lookup l o := by
  induction o with
  | nil => rfl
  | cons p rest ih =>
      obtain ⟨k, v⟩ := p
      rw [List.map_cons]
      by_cases hp : k = letter
      · have h1 : (if (k, v).1 == letter then ((k, v).1, txt) else (k, v)) = (k, txt) := by
          simp [hp]
        have hl : (l == k) = false := by
          simp only [beq_eq_false_iff_ne]
          intro h
          exact hne (by rw [← hp, h])
        rw [h1]
        simp only [List.lookup, hl]
        simpa using ih
      · have h1 : (if (k, v).1 == letter then ((k, v).1, txt) else (k, v)) = (k, v) := by
          simp [hp]
        rw [h1]
        cases hlp : l == k with
        | true => simp [List.lookup, hlp]
        | false =>
            simp only [List.lookup, hlp]
            simpa using ih

/-- Updating an option slot never changes the key list of the dict. -/
theorem optionUpdate_fst (o : List (List Char × List Char)) (l t : List Char) :
    (optionUpdate o l t).map Prod.fst = o.map Prod.fst := by
  unfold optionUpdate
  split
  · exact map_slot_fst o l t
  · rfl

/-- Folding option updates over any match list preserves the key list. -/
theorem foldUpdate_fst (ms : List (List Char × List Char))
    (o : List (List Char × List Char)) :
    ((ms.foldl (fun o m => optionUpdate o m.1 (cleanOptionText m.2)) o).map Prod.fst)
      = o.map Prod.fst := by
  induction ms generalizing o with
  | nil => rfl
  | cons m rest ih => rw [List.foldl_cons, ih, optionUpdate_fst]

theorem applyOptPattern_fst (o : List (List Char × List Char)) (t : List Char)
    (r : RE) : (applyOptPattern o t r).map Prod.fst = o.map Prod.fst :=
  foldUpdate_fst _ o

/-- The key list of the extracted options dict is always exactly A, B, C, D. -/
theorem extract_options_fst (t : List Char) :
    (extract_options_from_text t).map Prod.fst
      = [chars "A", chars "B", chars "C", chars "D"] := by
  show ((applyOptPattern (applyOptPattern (applyOptPattern options0 t reOpt1) t reOpt2)
          t reOpt3).map Prod.fst) = _
  rw [applyOptPattern_fst, applyOptPattern_fst, applyOptPattern_fst]
  rfl

/-- An update for a different letter leaves a slot untouched. -/
theorem optionUpdate_lookup_ne (o : List (List Char × List Char))
    (letter txt l : List Char) (hne : letter ≠ l) :
    (optionUpdate o letter txt).lookup l = o.lookup l := by
  unfold optionUpdate
  split
  · exact map_slot_lookup_ne o letter txt l hne
  · rfl

/-- Folding updates whose letters all differ from `l` leaves slot `l`
untouched. -/
theorem foldUpdate_lookup_ne (ms : List (List Char × List Char))
    (o : List (List Char × List Char)) (l : List Char)
    (h : ∀ p ∈ ms, p.1 ≠ l) :
    (ms.foldl (fun o m => optionUpdate o m.1 (cleanOptionText m.2)) o).lookup l
      = o.lookup l := by
  induction ms generalizing o with
  | nil => rfl
  | cons m rest ih =>
      rw [List.foldl_cons, ih _ (fun p hp => h p (List.mem_cons_of_mem m hp)),
        optionUpdate_lookup_ne _ _ _ _ (h m (List.mem_cons_self m rest))]

/-- The invariant the parser exposes through every returned question: the
validity gate held, and the options are exactly the extracted dict. -/
theorem parse_obj_inv (c : Container) (q : ObjQ)
    (h : parse_objective_question_improved c = some q) :
    q.question ≠ [] ∧ (∃ p ∈ q.options, p.2 ≠ []) ∧ 0 < q.number ∧
    q.options = extract_options_from_text (split1 reMarkSolution c.fullText).1 := by
  unfold parse_objective_question_improved at h
  cases hs : searchRE reNumberDot c.fullText with
  | none => rw [hs] at h; cases h
  | some m =>
      rw [hs] at h
      dsimp only at h
      split at h
      case isTrue hcond =>
          injection h with h
          subst h
          exact ⟨hcond.1, hcond.2.1, hcond.2.2, rfl⟩
      case isFalse => cases h

/-- **C4**: every question the objective parser returns (and in fact every
dict `extract_options_from_text` builds) has exactly the keys A, B, C, D in
its options mapping; a letter for which no pattern produced a match keeps
its initial empty-string value and is never removed from the mapping. -/
theorem c4_option_keys :
    (∀ t, (extract_options_from_text t).map Prod.fst
        = [chars "A", chars "B", chars "C", chars "D"])
    ∧ (∀ c q, parse_objective_question_improved c = some q →
        q.options.map Prod.fst = [chars "A", chars "B", chars "C", chars "D"])
    ∧ (∀ t l, (∀ r ∈ [reOpt1, reOpt2, reOpt3], ∀ p ∈ optMatchPairs r t, p.1 ≠ l) →
        (extract_options_from_text t).lookup l = options0.lookup l) := by
  refine ⟨extract_options_fst, ?_, ?_⟩
  · intro c q h
    rw [(parse_obj_inv c q h).2.2.2, extract_options_fst]
  · intro t l h
    show ((applyOptPattern (applyOptPattern (applyOptPattern options0 t reOpt1)
            t reOpt2) t reOpt3).lookup l) = _
    unfold applyOptPattern
    rw [foldUpdate_lookup_ne _ _ _ (h reOpt3 (by simp)),
      foldUpdate_lookup_ne _ _ _ (h reOpt2 (by simp)),
      foldUpdate_lookup_ne _ _ _ (h reOpt1 (by simp))]

/-- Witness for C4 at concrete inputs: the empty text and the Scenario A
parse. -/
theorem c4_option_keys_witness :
    (extract_options_from_text (chars "")).map Prod.fst
        = [chars "A", chars "B", chars "C", chars "D"]
    ∧ scenarioAQ.options.map Prod.fst = [chars "A", chars "B", chars "C", chars "D"]
    ∧ (extract_options_from_text (chars "")).lookup (chars "A")
        = options0.lookup (chars "A") :=
  ⟨c4_option_keys.1 (chars ""),
   c4_option_keys.2.1 scenarioAContainer scenarioAQ (by decide),
   c4_option_keys.2.2 (chars "") (chars "A") (by decide)⟩

/-- **C7**: the objective parser returns a question only when the extracted
stem is nonempty, at least one option is nonempty and the number is
positive; a block with no number pattern yields `none`.  The parser is a
total function of its input text, so it raises on no input. -/
theorem c7_objective_gate (c : Container) :
    (searchRE reNumberDot c.fullText = none →
        parse_objective_question_improved c = none)
    ∧ ∀ q, parse_objective_question_improved c = some q →
        q.question ≠ [] ∧ (∃ p ∈ q.options, p.2 ≠ []) ∧ 0 < q.number := by
  constructor
  · intro h
    unfold parse_objective_question_improved
    rw [h]
  · intro q h
    exact ⟨(parse_obj_inv c q h).1, (parse_obj_inv c q h).2.1,
      (parse_obj_inv c q h).2.2.1⟩

/-- Witness for C7: a numberless block parses to `none`, and the Scenario A
parse satisfies the gate conditions. -/
theorem c7_objective_gate_witness :
    parse_objective_question_improved noNumberContainer = none
    ∧ (scenarioAQ.question ≠ [] ∧ (∃ p ∈ scenarioAQ.options, p.2 ≠ [])
        ∧ 0 < scenarioAQ.number) :=
  ⟨(c7_objective_gate noNumberContainer).1 (by decide),
   (c7_objective_gate scenarioAContainer).2 scenarioAQ (by decide)⟩

/-- **C10** (counterexample): a subpart text containing two parenthesized
roman-numeral markers, each followed by no text, is not decomposed — all
candidate pieces strip to empty, `parse_sub_subparts_improved` returns no
sub-subparts, and the subpart keeps its entire text (prefix included) as its
question, which is not the empty string. -/
theorem c10_counterexample_all_pieces_empty :
    5 ≤ (resplitCap reIvx 1 (chars "Define (i) (ii)")).length
    ∧ parse_theory_structure_improved (chars "1. (a) Define (i) (ii)") 1
        = ([], [{ part := chars "(a)", question := chars "Define (i) (ii)",
                  subparts := [], solution := none }]) := by
  decide

/-- Helper: a prefix check against `subpart_3_` fails on any key that starts
with `subpart_2` — the Boolean prefix comparison short-circuits at the
ninth character. -/
theorem not_sub3_prefix_abstract (rest : List Char) :
    (chars "subpart_3_").isPrefixOf
      ('s' :: 'u' :: 'b' :: 'p' :: 'a' :: 'r' :: 't' :: '_' :: '2' :: rest) = false := rfl

/-- Helper: the shape of a nested key for subpart index 1 (column group
`subpart_2_..`). -/
theorem subKeyNested_one_shape (j : Nat) (name : List Char) :
    subKeyNested 1 j name
      = 's' :: 'u' :: 'b' :: 'p' :: 'a' :: 'r' :: 't' :: '_' :: '2' :: '_' ::
        Char.ofNat (97 + j) :: '_' :: name := rfl

/-- Helper: no nested row of the second subpart has a key beginning
`subpart_3_`, whatever its nested list is. -/
theorem subSubRows_one_no_sub3 (ns : List FSubSub) (j : Nat) :
    ∀ k ∈ (subSubRows 1 j ns).map Prod.fst,
      (chars "subpart_3_").isPrefixOf k = false := by
  induction ns generalizing j with
  | nil => intro k hk; cases hk
  | cons s rest ih =>
      intro k hk
      simp only [subSubRows, List.map_cons, List.mem_cons] at hk
      rcases hk with rfl | rfl | rfl | hk
      · rw [subKeyNested_one_shape]; exact not_sub3_prefix_abstract _
      · rw [subKeyNested_one_shape]; exact not_sub3_prefix_abstract _
      · rw [subKeyNested_one_shape]; exact not_sub3_prefix_abstract _
      · exact ih (j + 1) k hk

/-- **C9**: flattening a theory question with exactly two subparts, the
first carrying one nested sub-subpart, produces columns including
`subpart_1_question`, `subpart_2_solution` and `subpart_1_a_question`
(nested sub-subparts are letter-encoded from `a` at index 0), and no
column beginning with `subpart_3_`. -/
theorem c9_flatten_columns (q : FQuestion) (p1 p2 : FSubpart) (s1 : FSubSub)
    (h1 : q.subparts = some [p1, p2]) (h2 : p1.subparts = some [s1]) :
    (chars "subpart_1_question") ∈ (flatten_question q (chars "theory")).map Prod.fst
    ∧ (chars "subpart_2_solution") ∈ (flatten_question q (chars "theory")).map Prod.fst
    ∧ (chars "subpart_1_a_question") ∈ (flatten_question q (chars "theory")).map Prod.fst
    ∧ ∀ k ∈ (flatten_question q (chars "theory")).map Prod.fst,
        (chars "subpart_3_").isPrefixOf k = false := by
  have hkeys : (flatten_question q (chars "theory")).map Prod.fst
      = chars "type" :: chars "number" :: chars "question" :: chars "solution" ::
        chars "answer" :: chars "diagrams" ::
        chars "subpart_1_question" :: chars "subpart_1_solution" :: chars "subpart_1_answer" ::
        chars "subpart_1_a_question" :: chars "subpart_1_a_solution" :: chars "subpart_1_a_answer" ::
        chars "subpart_2_question" :: chars "subpart_2_solution" :: chars "subpart_2_answer" ::
        ((match p2.subparts with
          | some ns => subSubRows 1 0 ns
          | none => ([] : List (List Char × JVal))).map Prod.fst) := by
    simp only [flatten_question, h1, h2, subpartRows, subSubRows]
    cases hp2 : p2.subparts with
    | none => rfl
    | some ns =>
        simp only [List.map_append, List.map_cons, List.append_nil, List.nil_append,
          List.cons_append, List.map_nil]
        rfl
  rw [hkeys]
  refine ⟨?_, ?_, ?_, ?_⟩
  · repeat (first | exact List.mem_cons_self _ _ | apply List.mem_cons_of_mem)
  · repeat (first | exact List.mem_cons_self _ _ | apply List.mem_cons_of_mem)
  · repeat (first | exact List.mem_cons_self _ _ | apply List.mem_cons_of_mem)
  · intro k hk
    simp only [List.mem_cons] at hk
    rcases hk with rfl | rfl | rfl | rfl | rfl | rfl | rfl | rfl | rfl | rfl | rfl | rfl | rfl | rfl | rfl | hk
    all_goals first
      | decide
      | skip
    cases hp2 : p2.subparts with
    | none => rw [hp2] at hk; cases hk
    | some ns => rw [hp2] at hk; exact subSubRows_one_no_sub3 ns 0 k hk

/-- Witness for C9 at a concrete theory question. -/
theorem c9_flatten_columns_witness :
    (chars "subpart_1_question") ∈ (flatten_question flatSampleQ (chars "theory")).map Prod.fst
    ∧ (chars "subpart_2_solution") ∈ (flatten_question flatSampleQ (chars "theory")).map Prod.fst
    ∧ (chars "subpart_1_a_question") ∈ (flatten_question flatSampleQ (chars "theory")).map Prod.fst
    ∧ ∀ k ∈ (flatten_question flatSampleQ (chars "theory")).map Prod.fst,
        (chars "subpart_3_").isPrefixOf k = false :=
  c9_flatten_columns flatSampleQ flatSub1 flatSub2 flatNested1 rfl rfl

/-- Helper: the sub-subpart loop builds exactly one record per
marker/content pair whose stripped content is nonempty — and uses nothing
but those pairs, so in particular never the text before the first marker. -/
theorem subSubLoop_eq : ∀ l : List (List Char),
    subSubLoop l = (listPairs l).filterMap fun pr =>
      if (pyStrip pr.2).isEmpty then none
      else some ⟨'(' :: pr.1 ++ [')'], pyStrip pr.2⟩
  | [] => rfl
  | [_] => rfl
  | a :: b :: rest => by
      simp only [subSubLoop, listPairs, List.filterMap_cons, subSubLoop_eq rest]
      cases h : (pyStrip b).isEmpty <;> simp [h]

/-- **C10 amended**: when a subpart text splits into at least two markers
AND at least one marker is followed by text that strips to nonempty, the
decomposition sets the question field of the subpart to the empty string,
produces a nonempty sub-subpart list, and every produced sub-subpart comes
from a marker/content pair after the first marker — the text before the
first marker is used nowhere.  (Without the nonemptiness proviso the claim
fails; see the counterexample.) -/
theorem c10_decomposition_amended (letter content : List Char)
    (h5 : 5 ≤ (resplitCap reIvx 1 content).length)
    (hne : ∃ pr ∈ listPairs ((resplitCap reIvx 1 content).drop 1),
        pyStrip pr.2 ≠ []) :
    (mkSubpart letter content).question = []
    ∧ (mkSubpart letter content).subparts ≠ []
    ∧ ∀ ss ∈ (mkSubpart letter content).subparts,
        ∃ pr ∈ listPairs ((resplitCap reIvx 1 content).drop 1),
          ss.part = '(' :: pr.1 ++ [')'] ∧ ss.question = pyStrip pr.2 := by
  have hlen : ¬ (resplitCap reIvx 1 content).length < 3 := by omega
  have hps : parse_sub_subparts_improved content
      = subSubLoop ((resplitCap reIvx 1 content).drop 1) := by
    unfold parse_sub_subparts_improved
    rw [if_neg hlen]
  have hsub : parse_sub_subparts_improved content ≠ [] := by
    rw [hps, subSubLoop_eq]
    obtain ⟨pr, hpr, hprne⟩ := hne
    intro hcontra
    have hmem : (⟨'(' :: pr.1 ++ [')'], pyStrip pr.2⟩ : SubSub)
        ∈ (listPairs ((resplitCap reIvx 1 content).drop 1)).filterMap fun pr =>
            if (pyStrip pr.2).isEmpty then none
            else some ⟨'(' :: pr.1 ++ [')'], pyStrip pr.2⟩ := by
      refine List.mem_filterMap.mpr ⟨pr, hpr, ?_⟩
      have hf : (pyStrip pr.2).isEmpty = false := by
        cases he : (pyStrip pr.2).isEmpty
        · rfl
        · exact absurd (by simpa [List.isEmpty_iff] using he) hprne
      rw [hf]
      simp
    rw [hcontra] at hmem
    cases hmem
  have hsubs : (mkSubpart letter content).subparts
      = parse_sub_subparts_improved content := rfl
  refine ⟨?_, ?_, ?_⟩
  · show (if (parse_sub_subparts_improved content).isEmpty then content else []) = []
    rw [if_neg]
    intro he
    exact hsub (by simpa [List.isEmpty_iff] using he)
  · rw [hsubs]; exact hsub
  · intro ss hss
    rw [hsubs, hps, subSubLoop_eq] at hss
    obtain ⟨pr, hpr, hf⟩ := List.mem_filterMap.mp hss
    refine ⟨pr, hpr, ?_, ?_⟩
    · cases he : (pyStrip pr.2).isEmpty
      · rw [he] at hf
        simp only [Bool.false_eq_true, if_false] at hf
        injection hf with hf
        rw [← hf]
      · rw [he] at hf
        simp only [if_true] at hf
        cases hf
    · cases he : (pyStrip pr.2).isEmpty
      · rw [he] at hf
        simp only [Bool.false_eq_true, if_false] at hf
        injection hf with hf
        rw [← hf]
      · rw [he] at hf
        simp only [if_true] at hf
        cases hf

/-- Witness for C10 amended on the Scenario B subpart (a) text. -/
theorem c10_decomposition_amended_witness :
    (mkSubpart (chars "a") (chars "Define osmosis (i) in plants (ii) in animals")).question = []
    ∧ (mkSubpart (chars "a") (chars "Define osmosis (i) in plants (ii) in animals")).subparts ≠ []
    ∧ ∀ ss ∈ (mkSubpart (chars "a") (chars "Define osmosis (i) in plants (ii) in animals")).subparts,
        ∃ pr ∈ listPairs ((resplitCap reIvx 1
            (chars "Define osmosis (i) in plants (ii) in animals")).drop 1),
          ss.part = '(' :: pr.1 ++ [')'] ∧ ss.question = pyStrip pr.2 :=
  c10_decomposition_amended (chars "a")
    (chars "Define osmosis (i) in plants (ii) in animals") (by decide) (by decide)

end Kuulchat
